import Mathlib

/-!
Shallow embedding of `src/imgadd.c` (molyswu/ImageFusion).

Buffers are modelled as total functions `Nat → Nat`; a load of an
`unsigned char` element is taken modulo 256 (`byte`), a store into an
`unsigned char` buffer is taken modulo 256 and a store into an
`unsigned short` buffer modulo 65536, mirroring the C integer
conversions.  `unsigned int` arithmetic is modelled modulo `2 ^ 32`:
in every kernel the pixel count is `npixels = width * height` computed
in `unsigned int`, i.e. `(width * height) % 2 ^ 32`.

Each C kernel takes the output buffer `C` and returns the updated
buffer; a loop iteration that executes `C[i] = v` is `store c i v`.
The loops are folds over their iteration ranges.
-/

/-- `2 ^ 32`, the modulus of C `unsigned int` arithmetic. -/
def U32 : Nat := 2 ^ 32

/-- `npixels = width * height` computed in `unsigned int`. -/
def npixelsOf (width height : Nat) : Nat := width * height % U32

/-- A single store `C[i] = v` into a buffer. -/
def store (c : Nat → Nat) (i v : Nat) : Nat → Nat :=
  fun k => if k = i then v else c k

/-- Reading an `unsigned char` element: the value is a byte. -/
def byte (a : Nat → Nat) (i : Nat) : Nat := a i % 256

/-- `_mm_adds_epu8` / `_mm256_adds_epu8` on one 8-bit lane:
unsigned saturating add, clamped at 255. -/
def addsEpu8 (x y : Nat) : Nat := min (x + y) 255

/-- `_mm_adds_epu16` / `_mm256_adds_epu16` on one 16-bit lane:
unsigned saturating add, clamped at 65535. -/
def addsEpu16 (x y : Nat) : Nat := min (x + y) 65535

/-- Number of iterations of `for (i = 0; i < npixels; i += ppl)`:
`i` takes the values `0, ppl, 2*ppl, …` strictly below `npixels`. -/
def numSteps (npixels ppl : Nat) : Nat := (npixels + ppl - 1) / ppl

/-- A vector store of `m` consecutive lanes starting at index
`base`: lane `l` receives the value `g l`. -/
def storeLanes (g : Nat → Nat) (base m : Nat) (c : Nat → Nat) : Nat → Nat :=
  (List.range m).foldl (fun c' l => store c' (base + l) (g l)) c

/-- `img_add_kr_nsu` (imgadd.c:173-191): scalar saturating add.
`sum = A[i] + B[i]; if (sum > 255) sum = 255; C[i] = sum;` with the
final store converting to `unsigned char`. -/
def img_add_kr_nsu (A : Nat → Nat) (width height : Nat) (B : Nat → Nat)
    (C : Nat → Nat) : Nat → Nat :=
  (List.range (npixelsOf width height)).foldl
    (fun c i =>
      store c i
        ((if 255 < byte A i + byte B i then 255 else byte A i + byte B i) % 256))
    C

/-- `img_add_nsu` (imgadd.c:304-316): scalar widening add.
`C[i] = A[i] + B[i];` with the store converting to `unsigned short`. -/
def img_add_nsu (A : Nat → Nat) (width height : Nat) (B : Nat → Nat)
    (C : Nat → Nat) : Nat → Nat :=
  (List.range (npixelsOf width height)).foldl
    (fun c i => store c i ((byte A i + byte B i) % 65536))
    C

/-- `img_add_kr_sse` (imgadd.c:110-130): per step of 16 (`ppl = 16`),
load 16 bytes of `A` and of `B` at offset `i = 16*k`, saturating-add
bytewise (`_mm_adds_epu8`), store 16 bytes at `C + i`. -/
def img_add_kr_sse (A : Nat → Nat) (width height : Nat) (B : Nat → Nat)
    (C : Nat → Nat) : Nat → Nat :=
  (List.range (numSteps (npixelsOf width height) 16)).foldl
    (fun c k =>
      storeLanes
        (fun l => addsEpu8 (byte A (16 * k + l)) (byte B (16 * k + l)))
        (16 * k) 16 c)
    C

/-- `img_add_kr_avx` (imgadd.c:142-162): same as the SSE saturating
kernel with 32-byte steps (`ppl = 32`, `_mm256_adds_epu8`). -/
def img_add_kr_avx (A : Nat → Nat) (width height : Nat) (B : Nat → Nat)
    (C : Nat → Nat) : Nat → Nat :=
  (List.range (numSteps (npixelsOf width height) 32)).foldl
    (fun c k =>
      storeLanes
        (fun l => addsEpu8 (byte A (32 * k + l)) (byte B (32 * k + l)))
        (32 * k) 32 c)
    C

/-- `img_add_sse` (imgadd.c:201-242): per step of 16 input bytes at
`i = 16*k`, `_mm_unpacklo_epi8(X, Zero)` zero-extends bytes `i..i+7`,
`_mm_unpackhi_epi8` bytes `i+8..i+15`; the two `_mm_adds_epu16` sums
are stored as shorts at `C + j` and `C + j + 8` with `j = 16*k`. -/
def img_add_sse (A : Nat → Nat) (width height : Nat) (B : Nat → Nat)
    (C : Nat → Nat) : Nat → Nat :=
  (List.range (numSteps (npixelsOf width height) 16)).foldl
    (fun c k =>
      let cL :=
        storeLanes
          (fun l => (addsEpu16 (byte A (16 * k + l)) (byte B (16 * k + l))) % 65536)
          (16 * k) 8 c
      storeLanes
        (fun l => (addsEpu16 (byte A (16 * k + 8 + l)) (byte B (16 * k + 8 + l))) % 65536)
        (16 * k + 8) 8 cL)
    C

/-- Input byte selected by lane `l` of `_mm256_unpacklo_epi8(X, Zero)`
within a 32-byte block: the 256-bit unpack works per 128-bit half, so
the 16 low shorts come from bytes `0..7` and `16..23`. -/
def avxUnpackLo (l : Nat) : Nat := if l < 8 then l else l + 8

/-- Input byte selected by lane `l` of `_mm256_unpackhi_epi8(X, Zero)`
within a 32-byte block: the 16 high shorts come from bytes `8..15`
and `24..31`. -/
def avxUnpackHi (l : Nat) : Nat := if l < 8 then l + 8 else l + 16

/-- `img_add_avx` (imgadd.c:253-294): per step of 32 input bytes at
`i = 32*k`, `_mm256_unpacklo_epi8` / `_mm256_unpackhi_epi8` zero-extend
the bytes selected by `avxUnpackLo` / `avxUnpackHi` (the unpacks act on
each 128-bit half separately); the `_mm256_adds_epu16` sums are stored
as shorts at `C + j` and `C + j + 16` with `j = 32*k`. -/
def img_add_avx (A : Nat → Nat) (width height : Nat) (B : Nat → Nat)
    (C : Nat → Nat) : Nat → Nat :=
  (List.range (numSteps (npixelsOf width height) 32)).foldl
    (fun c k =>
      let cL :=
        storeLanes
          (fun l => (addsEpu16 (byte A (32 * k + avxUnpackLo l)) (byte B (32 * k + avxUnpackLo l))) % 65536)
          (32 * k) 16 c
      storeLanes
        (fun l => (addsEpu16 (byte A (32 * k + avxUnpackHi l)) (byte B (32 * k + avxUnpackHi l))) % 65536)
        (32 * k + 16) 16 cL)
    C

/-! ### Evaluation lemmas -/

/-- Unfolding a single store at an index. -/
theorem store_eval (c : Nat → Nat) (i v k : Nat) :
    store c i v k = if k = i then v else c k := rfl

/-- A `storeLanes` block evaluated at an index. -/
theorem storeLanes_eval (g : Nat → Nat) (base m : Nat) (c : Nat → Nat) (k : Nat) :
    storeLanes g base m c k
      = if base ≤ k ∧ k < base + m then g (k - base) else c k := by
  induction m with
  | zero =>
    simp only [storeLanes, List.range_zero, List.foldl_nil]
    rw [if_neg (by omega)]
  | succ m ih =>
    unfold storeLanes at ih ⊢
    rw [List.range_succ, List.foldl_append, List.foldl_cons, List.foldl_nil,
      store_eval]
    by_cases hk : k = base + m
    · rw [if_pos hk, if_pos (by omega)]
      rw [show k - base = m by omega]
    · rw [if_neg hk, ih]
      by_cases h1 : base ≤ k ∧ k < base + m
      · rw [if_pos h1, if_pos ⟨h1.1, by omega⟩]
      · rw [if_neg h1, if_neg (by omega)]

/-- The scalar saturating loop of `img_add_kr_nsu`, evaluated at an
index, for a generic iteration count `n`. -/
theorem krLoop_eval (A B C : Nat → Nat) (n k : Nat) :
    ((List.range n).foldl
      (fun c i =>
        store c i
          ((if 255 < byte A i + byte B i then 255 else byte A i + byte B i) % 256))
      C) k
    = if k < n then
        (if 255 < byte A k + byte B k then 255 else byte A k + byte B k) % 256
      else C k := by
  induction n with
  | zero => simp
  | succ n ih =>
    rw [List.range_succ, List.foldl_append, List.foldl_cons, List.foldl_nil,
      store_eval]
    by_cases hk : k = n
    · rw [if_pos hk, if_pos (show k < n + 1 by omega), hk]
    · rw [if_neg hk, ih]
      by_cases h1 : k < n
      · rw [if_pos h1, if_pos (show k < n + 1 by omega)]
      · rw [if_neg h1, if_neg (show ¬k < n + 1 by omega)]

/-- The scalar widening loop of `img_add_nsu`, evaluated at an index,
for a generic iteration count `n`. -/
theorem wideLoop_eval (A B C : Nat → Nat) (n k : Nat) :
    ((List.range n).foldl
      (fun c i => store c i ((byte A i + byte B i) % 65536)) C) k
    = if k < n then (byte A k + byte B k) % 65536 else C k := by
  induction n with
  | zero => simp
  | succ n ih =>
    rw [List.range_succ, List.foldl_append, List.foldl_cons, List.foldl_nil,
      store_eval]
    by_cases hk : k = n
    · rw [if_pos hk, if_pos (show k < n + 1 by omega), hk]
    · rw [if_neg hk, ih]
      by_cases h1 : k < n
      · rw [if_pos h1, if_pos (show k < n + 1 by omega)]
      · rw [if_neg h1, if_neg (show ¬k < n + 1 by omega)]

/-- `img_add_kr_nsu` evaluated at an index. -/
theorem img_add_kr_nsu_eval (A : Nat → Nat) (width height : Nat) (B C : Nat → Nat)
    (k : Nat) :
    img_add_kr_nsu A width height B C k
    = if k < npixelsOf width height then
        (if 255 < byte A k + byte B k then 255 else byte A k + byte B k) % 256
      else C k :=
  krLoop_eval A B C (npixelsOf width height) k

/-- `img_add_nsu` evaluated at an index. -/
theorem img_add_nsu_eval (A : Nat → Nat) (width height : Nat) (B C : Nat → Nat)
    (k : Nat) :
    img_add_nsu A width height B C k
    = if k < npixelsOf width height then (byte A k + byte B k) % 65536 else C k :=
  wideLoop_eval A B C (npixelsOf width height) k

/-- The blockwise saturating vector loop (block size `p`), evaluated at
an index, for a generic block count `nb`. -/
theorem krBlocks_eval (A B C : Nat → Nat) (p nb k : Nat) :
    ((List.range nb).foldl
      (fun c kb =>
        storeLanes
          (fun l => addsEpu8 (byte A (p * kb + l)) (byte B (p * kb + l)))
          (p * kb) p c)
      C) k
    = if k < p * nb then addsEpu8 (byte A k) (byte B k) else C k := by
  induction nb with
  | zero => simp
  | succ nb ih =>
    rw [List.range_succ, List.foldl_append, List.foldl_cons, List.foldl_nil]
    simp only [storeLanes_eval]
    rw [Nat.mul_succ]
    by_cases hk : p * nb ≤ k ∧ k < p * nb + p
    · rw [if_pos hk, if_pos (by omega), show p * nb + (k - p * nb) = k by omega]
    · rw [if_neg hk, ih]
      by_cases h1 : k < p * nb
      · rw [if_pos h1, if_pos (by omega)]
      · rw [if_neg h1, if_neg (by omega)]

/-- The blockwise widening SSE loop, evaluated at an index, for a
generic block count `nb`: within every 16-element block the output at
offset `o` is the widened sum of the same-offset inputs. -/
theorem wideSseBlocks_eval (A B C : Nat → Nat) (nb k : Nat) :
    ((List.range nb).foldl
      (fun c kb =>
        let cL :=
          storeLanes
            (fun l => (addsEpu16 (byte A (16 * kb + l)) (byte B (16 * kb + l))) % 65536)
            (16 * kb) 8 c
        storeLanes
          (fun l => (addsEpu16 (byte A (16 * kb + 8 + l)) (byte B (16 * kb + 8 + l))) % 65536)
          (16 * kb + 8) 8 cL)
      C) k
    = if k < 16 * nb then (addsEpu16 (byte A k) (byte B k)) % 65536 else C k := by
  induction nb with
  | zero => simp
  | succ nb ih =>
    rw [List.range_succ, List.foldl_append, List.foldl_cons, List.foldl_nil]
    simp only [storeLanes_eval]
    by_cases hH : 16 * nb + 8 ≤ k ∧ k < 16 * nb + 8 + 8
    · rw [if_pos hH, show 16 * nb + 8 + (k - (16 * nb + 8)) = k by omega,
        if_pos (by omega)]
    · rw [if_neg hH]
      by_cases hL : 16 * nb ≤ k ∧ k < 16 * nb + 8
      · rw [if_pos hL, show 16 * nb + (k - 16 * nb) = k by omega,
          if_pos (by omega)]
      · rw [if_neg hL, ih]
        by_cases h1 : k < 16 * nb
        · rw [if_pos h1, if_pos (by omega)]
        · rw [if_neg h1, if_neg (by omega)]

/-- `img_add_kr_sse` evaluated at an index: it writes the saturated sum
on `[0, 16 * numSteps npixels 16)` and leaves the rest of `C`. -/
theorem img_add_kr_sse_eval (A : Nat → Nat) (width height : Nat) (B C : Nat → Nat)
    (k : Nat) :
    img_add_kr_sse A width height B C k
    = if k < 16 * numSteps (npixelsOf width height) 16 then
        addsEpu8 (byte A k) (byte B k)
      else C k :=
  krBlocks_eval A B C 16 (numSteps (npixelsOf width height) 16) k

/-- `img_add_kr_avx` evaluated at an index. -/
theorem img_add_kr_avx_eval (A : Nat → Nat) (width height : Nat) (B C : Nat → Nat)
    (k : Nat) :
    img_add_kr_avx A width height B C k
    = if k < 32 * numSteps (npixelsOf width height) 32 then
        addsEpu8 (byte A k) (byte B k)
      else C k :=
  krBlocks_eval A B C 32 (numSteps (npixelsOf width height) 32) k

/-- `img_add_sse` evaluated at an index. -/
theorem img_add_sse_eval (A : Nat → Nat) (width height : Nat) (B C : Nat → Nat)
    (k : Nat) :
    img_add_sse A width height B C k
    = if k < 16 * numSteps (npixelsOf width height) 16 then
        (addsEpu16 (byte A k) (byte B k)) % 65536
      else C k :=
  wideSseBlocks_eval A B C (numSteps (npixelsOf width height) 16) k

/-! ### Shared arithmetic facts about the pixel count -/

/-- When `width * height` fits in `unsigned int`, the computed pixel
count is exact. -/
theorem npixelsOf_eq_of_lt (width height : Nat) (h : width * height < 2 ^ 32) :
    npixelsOf width height = width * height := by
  unfold npixelsOf U32
  omega

/-- The computed pixel count never exceeds the mathematical product. -/
theorem npixelsOf_le (width height : Nat) :
    npixelsOf width height ≤ width * height :=
  Nat.mod_le _ _

/-! ### Claims -/

/-- Claim C2 (amended with the proviso `width * height < 2 ^ 32`, which
the counterexample `claim_C2_counterexample` forces): for all 8-bit
inputs and every index `i < width * height`, the scalar saturating
kernel `img_add_kr_nsu` writes `C[i] = min (A[i] + B[i]) 255`, so every
output value is at most 255. -/
theorem claim_C2_kr_nsu_saturates (A B C : Nat → Nat) (width height i : Nat)
    (hwh : width * height < 2 ^ 32) (hi : i < width * height)
    (hA : A i ≤ 255) (hB : B i ≤ 255) :
    img_add_kr_nsu A width height B C i = min (A i + B i) 255
    ∧ img_add_kr_nsu A width height B C i ≤ 255 := by
  have hnp := npixelsOf_eq_of_lt width height hwh
  have hbA : byte A i = A i := Nat.mod_eq_of_lt (by omega)
  have hbB : byte B i = B i := Nat.mod_eq_of_lt (by omega)
  rw [img_add_kr_nsu_eval, hnp, if_pos hi, hbA, hbB]
  constructor
  · split_ifs with h <;> omega
  · split_ifs with h <;> omega

/-- Witness for `claim_C2_kr_nsu_saturates` at a concrete input. -/
theorem claim_C2_witness :
    2 * 2 < 2 ^ 32 ∧ 1 < 2 * 2 ∧ (100 : Nat) ≤ 255 ∧ (200 : Nat) ≤ 255
    ∧ (img_add_kr_nsu (fun _ => 100) 2 2 (fun _ => 200) (fun _ => 0) 1
          = min (100 + 200) 255
        ∧ img_add_kr_nsu (fun _ => 100) 2 2 (fun _ => 200) (fun _ => 0) 1 ≤ 255) :=
  ⟨by norm_num, by norm_num, by norm_num, by norm_num,
    claim_C2_kr_nsu_saturates (fun _ => 100) (fun _ => 200) (fun _ => 0) 2 2 1
      (by norm_num) (by norm_num) (by norm_num) (by norm_num)⟩

/-- Claim C2 as stated is false: when `width * height` overflows
`unsigned int` (here `65536 * 65536 ≡ 0`), index 0 lies in
`[0, width * height)` but the kernel writes nothing, leaving the old
contents of `C` (77) instead of `min (10 + 20) 255 = 30`. -/
theorem claim_C2_counterexample :
    img_add_kr_nsu (fun _ => 10) 65536 65536 (fun _ => 20) (fun _ => 77) 0 = 77
    ∧ (0 : Nat) < 65536 * 65536
    ∧ min (10 + 20 : Nat) 255 = 30 := by
  refine ⟨?_, by norm_num, by norm_num⟩
  rw [img_add_kr_nsu_eval]
  norm_num [npixelsOf, U32]

/-- Claim C3 (amended with the proviso `width * height < 2 ^ 32`, which
the counterexample `claim_C3_counterexample` forces): for all 8-bit
inputs and every index `i < width * height`, the scalar widening kernel
`img_add_nsu` writes the exact sum `C[i] = A[i] + B[i]`, which is at
most 510, with no overflow. -/
theorem claim_C3_nsu_exact (A B C : Nat → Nat) (width height i : Nat)
    (hwh : width * height < 2 ^ 32) (hi : i < width * height)
    (hA : A i ≤ 255) (hB : B i ≤ 255) :
    img_add_nsu A width height B C i = A i + B i
    ∧ img_add_nsu A width height B C i ≤ 510 := by
  have hnp := npixelsOf_eq_of_lt width height hwh
  have hbA : byte A i = A i := Nat.mod_eq_of_lt (by omega)
  have hbB : byte B i = B i := Nat.mod_eq_of_lt (by omega)
  rw [img_add_nsu_eval, hnp, if_pos hi, hbA, hbB]
  constructor <;> omega

/-- Witness for `claim_C3_nsu_exact` at a concrete input. -/
theorem claim_C3_witness :
    3 * 1 < 2 ^ 32 ∧ 2 < 3 * 1 ∧ (255 : Nat) ≤ 255 ∧ (255 : Nat) ≤ 255
    ∧ (img_add_nsu (fun _ => 255) 3 1 (fun _ => 255) (fun _ => 0) 2 = 255 + 255
        ∧ img_add_nsu (fun _ => 255) 3 1 (fun _ => 255) (fun _ => 0) 2 ≤ 510) :=
  ⟨by norm_num, by norm_num, by norm_num, by norm_num,
    claim_C3_nsu_exact (fun _ => 255) (fun _ => 255) (fun _ => 0) 3 1 2
      (by norm_num) (by norm_num) (by norm_num) (by norm_num)⟩

/-- Claim C3 as stated is false: when `width * height` overflows
`unsigned int` (here `65536 * 65536 ≡ 0`), index 0 lies in
`[0, width * height)` but the widening kernel writes nothing, leaving
the old contents of `C` (7) instead of `10 + 20 = 30`. -/
theorem claim_C3_counterexample :
    img_add_nsu (fun _ => 10) 65536 65536 (fun _ => 20) (fun _ => 7) 0 = 7
    ∧ (0 : Nat) < 65536 * 65536
    ∧ (7 : Nat) ≠ 10 + 20 := by
  refine ⟨?_, by norm_num, by norm_num⟩
  rw [img_add_nsu_eval]
  norm_num [npixelsOf, U32]

/-- Input image `A` of the concrete scenario of claim C5. -/
def exA : Nat → Nat := fun i => [10, 250, 0, 255].getD i 0

/-- Input image `B` of the concrete scenario of claim C5. -/
def exB : Nat → Nat := fun i => [20, 10, 0, 1].getD i 0

/-- Claim C5: for width 4, height 1, A = [10,250,0,255] and
B = [20,10,0,1], the saturating kernel produces [30,255,0,255] and the
widening kernel produces [30,260,0,256]. -/
theorem claim_C5_concrete_scenario :
    (img_add_kr_nsu exA 4 1 exB (fun _ => 0) 0 = 30
      ∧ img_add_kr_nsu exA 4 1 exB (fun _ => 0) 1 = 255
      ∧ img_add_kr_nsu exA 4 1 exB (fun _ => 0) 2 = 0
      ∧ img_add_kr_nsu exA 4 1 exB (fun _ => 0) 3 = 255)
    ∧ (img_add_nsu exA 4 1 exB (fun _ => 0) 0 = 30
      ∧ img_add_nsu exA 4 1 exB (fun _ => 0) 1 = 260
      ∧ img_add_nsu exA 4 1 exB (fun _ => 0) 2 = 0
      ∧ img_add_nsu exA 4 1 exB (fun _ => 0) 3 = 256) := by
  decide

/-- Claim C8: both scalar kernels are deterministic pure functions and
each output element depends only on the same-index inputs: if two input
pairs agree at index `i`, the two outputs agree at index `i`. -/
theorem claim_C8_pointwise_dependence (A A2 B B2 C : Nat → Nat)
    (width height i : Nat) (hA : A i = A2 i) (hB : B i = B2 i) :
    img_add_kr_nsu A width height B C i = img_add_kr_nsu A2 width height B2 C i
    ∧ img_add_nsu A width height B C i = img_add_nsu A2 width height B2 C i := by
  rw [img_add_kr_nsu_eval, img_add_kr_nsu_eval, img_add_nsu_eval,
    img_add_nsu_eval]
  unfold byte
  rw [hA, hB]
  exact ⟨rfl, rfl⟩

/-- Witness for `claim_C8_pointwise_dependence`: two input pairs that
agree only at index 1. -/
theorem claim_C8_witness :
    (fun i => if i = 1 then (7 : Nat) else 3) 1 = (fun _ => (7 : Nat)) 1
    ∧ (fun i => if i = 1 then (9 : Nat) else 4) 1 = (fun _ => (9 : Nat)) 1
    ∧ (img_add_kr_nsu (fun i => if i = 1 then 7 else 3) 2 1
          (fun i => if i = 1 then 9 else 4) (fun _ => 0) 1
        = img_add_kr_nsu (fun _ => 7) 2 1 (fun _ => 9) (fun _ => 0) 1
      ∧ img_add_nsu (fun i => if i = 1 then 7 else 3) 2 1
          (fun i => if i = 1 then 9 else 4) (fun _ => 0) 1
        = img_add_nsu (fun _ => 7) 2 1 (fun _ => 9) (fun _ => 0) 1) :=
  ⟨by decide, by decide,
    claim_C8_pointwise_dependence (fun i => if i = 1 then 7 else 3) (fun _ => 7)
      (fun i => if i = 1 then 9 else 4) (fun _ => 9) (fun _ => 0) 2 1 1
      (by decide) (by decide)⟩

/-- Claim C9: on every processed index, the saturating kernel output is
the elementwise clamp at 255 of the widening kernel output. -/
theorem claim_C9_kr_clamps_wide (A B D D2 : Nat → Nat) (width height i : Nat)
    (hi : i < npixelsOf width height) :
    img_add_kr_nsu A width height B D i
      = min (img_add_nsu A width height B D2 i) 255 := by
  rw [img_add_kr_nsu_eval, img_add_nsu_eval, if_pos hi, if_pos hi]
  unfold byte
  split_ifs with h <;> omega

/-- Witness for `claim_C9_kr_clamps_wide` at a concrete input. -/
theorem claim_C9_witness :
    0 < npixelsOf 1 1
    ∧ img_add_kr_nsu (fun _ => 200) 1 1 (fun _ => 100) (fun _ => 3) 0
        = min (img_add_nsu (fun _ => 200) 1 1 (fun _ => 100) (fun _ => 4) 0) 255 :=
  ⟨by decide,
    claim_C9_kr_clamps_wide (fun _ => 200) (fun _ => 100) (fun _ => 3)
      (fun _ => 4) 1 1 0 (by decide)⟩

/-- A saturating byte lane equals the scalar clamped-sum store. -/
theorem addsEpu8_eq_kr_value (x y : Nat) :
    addsEpu8 x y = (if 255 < x + y then 255 else x + y) % 256 := by
  unfold addsEpu8
  split_ifs with h <;> omega

/-- A widening 16-bit lane (sum of two bytes, no saturation reached)
equals the scalar widening store. -/
theorem addsEpu16_mod_eq (a b : Nat → Nat) (k : Nat) :
    addsEpu16 (byte a k) (byte b k) % 65536 = (byte a k + byte b k) % 65536 := by
  unfold addsEpu16 byte
  omega

/-- Claim C4: when `width * height` is a multiple of 16, the SSE
strategies agree with the scalar strategies at every index, write
nothing outside `C[0..width*height)`, and read nothing outside
`A[0..width*height)` and `B[0..width*height)` (outputs are unchanged
under any modification of the inputs at indices `≥ width * height`). -/
theorem claim_C4_sse_matches_scalar (A A2 B B2 C : Nat → Nat)
    (width height k : Nat) (h16 : 16 ∣ width * height)
    (hA : ∀ j, j < width * height → A2 j = A j)
    (hB : ∀ j, j < width * height → B2 j = B j) :
    img_add_kr_sse A width height B C k = img_add_kr_nsu A width height B C k
    ∧ img_add_sse A width height B C k = img_add_nsu A width height B C k
    ∧ (width * height ≤ k →
        img_add_kr_sse A width height B C k = C k
        ∧ img_add_sse A width height B C k = C k)
    ∧ img_add_kr_sse A2 width height B2 C k = img_add_kr_sse A width height B C k
    ∧ img_add_sse A2 width height B2 C k = img_add_sse A width height B C k := by
  have hdvd : 16 ∣ npixelsOf width height := by
    unfold npixelsOf U32
    omega
  have hsteps : 16 * numSteps (npixelsOf width height) 16
      = npixelsOf width height := by
    unfold numSteps
    omega
  have hle := npixelsOf_le width height
  refine ⟨?_, ?_, ?_, ?_, ?_⟩
  · rw [img_add_kr_sse_eval, img_add_kr_nsu_eval, hsteps]
    by_cases hk : k < npixelsOf width height
    · rw [if_pos hk, if_pos hk, addsEpu8_eq_kr_value]
    · rw [if_neg hk, if_neg hk]
  · rw [img_add_sse_eval, img_add_nsu_eval, hsteps]
    by_cases hk : k < npixelsOf width height
    · rw [if_pos hk, if_pos hk, addsEpu16_mod_eq]
    · rw [if_neg hk, if_neg hk]
  · intro hk
    refine ⟨?_, ?_⟩
    · rw [img_add_kr_sse_eval, hsteps, if_neg (by omega)]
    · rw [img_add_sse_eval, hsteps, if_neg (by omega)]
  · rw [img_add_kr_sse_eval, img_add_kr_sse_eval, hsteps]
    by_cases hk : k < npixelsOf width height
    · have h1 : byte A2 k = byte A k := by
        unfold byte
        rw [hA k (by omega)]
      have h2 : byte B2 k = byte B k := by
        unfold byte
        rw [hB k (by omega)]
      rw [if_pos hk, if_pos hk, h1, h2]
    · rw [if_neg hk, if_neg hk]
  · rw [img_add_sse_eval, img_add_sse_eval, hsteps]
    by_cases hk : k < npixelsOf width height
    · have h1 : byte A2 k = byte A k := by
        unfold byte
        rw [hA k (by omega)]
      have h2 : byte B2 k = byte B k := by
        unfold byte
        rw [hB k (by omega)]
      rw [if_pos hk, if_pos hk, h1, h2]
    · rw [if_neg hk, if_neg hk]

/-- Witness for `claim_C4_sse_matches_scalar` at a concrete input of
length 16 and an index 20 outside the buffers. -/
theorem claim_C4_witness :
    (16 : Nat) ∣ 16 * 1
    ∧ (∀ j, j < 16 * 1 →
        (fun j => if j < 16 then (5 : Nat) else 99) j = (fun _ => (5 : Nat)) j)
    ∧ (∀ j, j < 16 * 1 →
        (fun j => if j < 16 then (6 : Nat) else 88) j = (fun _ => (6 : Nat)) j)
    ∧ (img_add_kr_sse (fun _ => 5) 16 1 (fun _ => 6) (fun _ => 1) 20
          = img_add_kr_nsu (fun _ => 5) 16 1 (fun _ => 6) (fun _ => 1) 20
        ∧ img_add_sse (fun _ => 5) 16 1 (fun _ => 6) (fun _ => 1) 20
          = img_add_nsu (fun _ => 5) 16 1 (fun _ => 6) (fun _ => 1) 20
        ∧ (16 * 1 ≤ 20 →
            img_add_kr_sse (fun _ => 5) 16 1 (fun _ => 6) (fun _ => 1) 20 = 1
            ∧ img_add_sse (fun _ => 5) 16 1 (fun _ => 6) (fun _ => 1) 20 = 1)
        ∧ img_add_kr_sse (fun j => if j < 16 then 5 else 99) 16 1
            (fun j => if j < 16 then 6 else 88) (fun _ => 1) 20
          = img_add_kr_sse (fun _ => 5) 16 1 (fun _ => 6) (fun _ => 1) 20
        ∧ img_add_sse (fun j => if j < 16 then 5 else 99) 16 1
            (fun j => if j < 16 then 6 else 88) (fun _ => 1) 20
          = img_add_sse (fun _ => 5) 16 1 (fun _ => 6) (fun _ => 1) 20) :=
  ⟨by decide, by decide, by decide,
    claim_C4_sse_matches_scalar (fun _ => 5) (fun j => if j < 16 then 5 else 99)
      (fun _ => 6) (fun j => if j < 16 then 6 else 88) (fun _ => 1) 16 1 20
      (by decide) (by decide) (by decide)⟩

/-- Claim C6: when `width * height = 0`, every strategy of both kernels
writes no output element: the output buffer is returned unchanged at
every index. -/
theorem claim_C6_empty_input (A B C : Nat → Nat) (width height k : Nat)
    (h0 : width * height = 0) :
    img_add_kr_nsu A width height B C k = C k
    ∧ img_add_kr_sse A width height B C k = C k
    ∧ img_add_kr_avx A width height B C k = C k
    ∧ img_add_nsu A width height B C k = C k
    ∧ img_add_sse A width height B C k = C k
    ∧ img_add_avx A width height B C k = C k := by
  have hnp : npixelsOf width height = 0 := by
    unfold npixelsOf
    rw [h0]
    exact Nat.zero_mod _
  have h16 : numSteps 0 16 = 0 := by decide
  have h32 : numSteps 0 32 = 0 := by decide
  refine ⟨?_, ?_, ?_, ?_, ?_, ?_⟩
  · rw [img_add_kr_nsu_eval, hnp, if_neg (by omega)]
  · rw [img_add_kr_sse_eval, hnp, h16, if_neg (by omega)]
  · rw [img_add_kr_avx_eval, hnp, h32, if_neg (by omega)]
  · rw [img_add_nsu_eval, hnp, if_neg (by omega)]
  · rw [img_add_sse_eval, hnp, h16, if_neg (by omega)]
  · show img_add_avx A width height B C k = C k
    unfold img_add_avx
    rw [hnp, h32]
    rfl

/-- Witness for `claim_C6_empty_input` at `width = 0`, `height = 7`. -/
theorem claim_C6_witness :
    0 * 7 = 0
    ∧ (img_add_kr_nsu (fun _ => 2) 0 7 (fun _ => 2) (fun _ => 9) 5 = 9
      ∧ img_add_kr_sse (fun _ => 2) 0 7 (fun _ => 2) (fun _ => 9) 5 = 9
      ∧ img_add_kr_avx (fun _ => 2) 0 7 (fun _ => 2) (fun _ => 9) 5 = 9
      ∧ img_add_nsu (fun _ => 2) 0 7 (fun _ => 2) (fun _ => 9) 5 = 9
      ∧ img_add_sse (fun _ => 2) 0 7 (fun _ => 2) (fun _ => 9) 5 = 9
      ∧ img_add_avx (fun _ => 2) 0 7 (fun _ => 2) (fun _ => 9) 5 = 9) :=
  ⟨by decide,
    claim_C6_empty_input (fun _ => 2) (fun _ => 2) (fun _ => 9) 0 7 5 (by decide)⟩

/-- Claim C7 (amended with the proviso `width * height < 2 ^ 32`, which
the counterexample `claim_C7_counterexample` forces): after a scalar
kernel call, every element of `C` in `[0, width*height)` is overwritten
(the result there does not depend on the previous contents of `C`), and
no element of `C` outside `[0, width*height)` is written.  The inputs
`A` and `B` are read-only by construction of the embedding: the kernels
return only the updated output buffer. -/
theorem claim_C7_frame (A B C D : Nat → Nat) (width height k : Nat)
    (hwh : width * height < 2 ^ 32) :
    (k < width * height →
      img_add_kr_nsu A width height B C k = img_add_kr_nsu A width height B D k
      ∧ img_add_nsu A width height B C k = img_add_nsu A width height B D k)
    ∧ (width * height ≤ k →
      img_add_kr_nsu A width height B C k = C k
      ∧ img_add_nsu A width height B C k = C k) := by
  have hnp := npixelsOf_eq_of_lt width height hwh
  constructor
  · intro hk
    refine ⟨?_, ?_⟩
    · rw [img_add_kr_nsu_eval, img_add_kr_nsu_eval, hnp, if_pos hk, if_pos hk]
    · rw [img_add_nsu_eval, img_add_nsu_eval, hnp, if_pos hk, if_pos hk]
  · intro hk
    refine ⟨?_, ?_⟩
    · rw [img_add_kr_nsu_eval, hnp, if_neg (by omega)]
    · rw [img_add_nsu_eval, hnp, if_neg (by omega)]

/-- Witness for `claim_C7_frame` at a concrete input. -/
theorem claim_C7_witness :
    2 * 3 < 2 ^ 32
    ∧ ((1 < 2 * 3 →
        img_add_kr_nsu (fun _ => 1) 2 3 (fun _ => 2) (fun _ => 30) 1
          = img_add_kr_nsu (fun _ => 1) 2 3 (fun _ => 2) (fun _ => 40) 1
        ∧ img_add_nsu (fun _ => 1) 2 3 (fun _ => 2) (fun _ => 30) 1
          = img_add_nsu (fun _ => 1) 2 3 (fun _ => 2) (fun _ => 40) 1)
      ∧ (2 * 3 ≤ 1 →
        img_add_kr_nsu (fun _ => 1) 2 3 (fun _ => 2) (fun _ => 30) 1 = 30
        ∧ img_add_nsu (fun _ => 1) 2 3 (fun _ => 2) (fun _ => 30) 1 = 30)) :=
  ⟨by decide,
    claim_C7_frame (fun _ => 1) (fun _ => 2) (fun _ => 30) (fun _ => 40) 2 3 1
      (by decide)⟩

/-- Claim C7 as stated is false without an overflow proviso: at
`width = height = 65536` the pixel count wraps to 0, so `C[0]`, although
inside `[0, width*height)`, is not overwritten: the widening kernel
leaves the old value 5 where a full overwrite of `C` would store
`A[0] + B[0] = 0`. -/
theorem claim_C7_counterexample :
    img_add_nsu (fun _ => 0) 65536 65536 (fun _ => 0) (fun _ => 5) 0 = 5
    ∧ (0 : Nat) < 65536 * 65536
    ∧ (5 : Nat) ≠ 0 + 0 := by
  refine ⟨?_, by norm_num, by norm_num⟩
  rw [img_add_nsu_eval]
  norm_num [npixelsOf, U32]

/-- Claim C10: the number of elements processed is
`(width * height) % 2 ^ 32` because the pixel count is computed in
32-bit unsigned arithmetic: when the mathematical product reaches
`2 ^ 32`, the scalar kernels process strictly fewer than
`width * height` elements — indices at or above `npixelsOf` keep the
old contents of `C`, while indices below it are written. -/
theorem claim_C10_count_wraps (A B C : Nat → Nat) (width height k : Nat)
    (hbig : 2 ^ 32 ≤ width * height) :
    npixelsOf width height < width * height
    ∧ (npixelsOf width height ≤ k →
        img_add_kr_nsu A width height B C k = C k
        ∧ img_add_nsu A width height B C k = C k)
    ∧ (k < npixelsOf width height →
        img_add_kr_nsu A width height B C k
          = (if 255 < byte A k + byte B k then 255
             else byte A k + byte B k) % 256
        ∧ img_add_nsu A width height B C k = (byte A k + byte B k) % 65536) := by
  refine ⟨?_, ?_, ?_⟩
  · unfold npixelsOf U32
    omega
  · intro hk
    refine ⟨?_, ?_⟩
    · rw [img_add_kr_nsu_eval, if_neg (by omega)]
    · rw [img_add_nsu_eval, if_neg (by omega)]
  · intro hk
    refine ⟨?_, ?_⟩
    · rw [img_add_kr_nsu_eval, if_pos hk]
    · rw [img_add_nsu_eval, if_pos hk]

/-- Witness for `claim_C10_count_wraps`: `width = height = 2 ^ 16`
wraps the pixel count to 0, so 0 elements are processed. -/
theorem claim_C10_witness :
    2 ^ 32 ≤ 65536 * 65536
    ∧ (npixelsOf 65536 65536 < 65536 * 65536
      ∧ (npixelsOf 65536 65536 ≤ 0 →
          img_add_kr_nsu (fun _ => 8) 65536 65536 (fun _ => 9) (fun _ => 123) 0
            = 123
          ∧ img_add_nsu (fun _ => 8) 65536 65536 (fun _ => 9) (fun _ => 123) 0
            = 123)
      ∧ (0 < npixelsOf 65536 65536 →
          img_add_kr_nsu (fun _ => 8) 65536 65536 (fun _ => 9) (fun _ => 123) 0
            = (if 255 < byte (fun _ => 8) 0 + byte (fun _ => 9) 0 then 255
               else byte (fun _ => 8) 0 + byte (fun _ => 9) 0) % 256
          ∧ img_add_nsu (fun _ => 8) 65536 65536 (fun _ => 9) (fun _ => 123) 0
            = (byte (fun _ => 8) 0 + byte (fun _ => 9) 0) % 65536)) :=
  ⟨by decide,
    claim_C10_count_wraps (fun _ => 8) (fun _ => 9) (fun _ => 123) 65536 65536 0
      (by decide)⟩

/-- Input image with a single nonzero byte at index 8, used to exhibit
the cross-lane misplacement of the AVX widening kernel. -/
def oneAt8 : Nat → Nat := fun i => if i = 8 then 1 else 0

/-- Claim C1: for `N = 32` (a multiple of 32) the strategies are NOT all
byte-identical.  With `A` equal to 1 at index 8 and 0 elsewhere and
`B = 0`, the scalar and SSE strategies of both kernels put 1 at output
index 8, but the AVX widening kernel `img_add_avx` puts 0 there: its
per-128-bit-half `_mm256_unpacklo_epi8`/`_mm256_unpackhi_epi8` route
input byte 16 (not byte 8) to output short 8, so its block output order
is `0..7, 16..23, 8..15, 24..31`.  The saturating AVX kernel
(`_mm256_adds_epu8`, purely lane-wise) does agree with the scalar one
(value 1 at index 8, shown for contrast). -/
theorem claim_C1_avx_widening_diverges :
    img_add_nsu oneAt8 32 1 (fun _ => 0) (fun _ => 0) 8 = 1
    ∧ img_add_sse oneAt8 32 1 (fun _ => 0) (fun _ => 0) 8 = 1
    ∧ img_add_kr_nsu oneAt8 32 1 (fun _ => 0) (fun _ => 0) 8 = 1
    ∧ img_add_kr_sse oneAt8 32 1 (fun _ => 0) (fun _ => 0) 8 = 1
    ∧ img_add_kr_avx oneAt8 32 1 (fun _ => 0) (fun _ => 0) 8 = 1
    ∧ img_add_avx oneAt8 32 1 (fun _ => 0) (fun _ => 0) 8 = 0
    ∧ img_add_avx oneAt8 32 1 (fun _ => 0) (fun _ => 0) 16 = 1 := by
  decide
